import Mathlib

/-!
Verification of the Pianobar Home Assistant integration's coordinator
(`custom_components/pianobar/coordinator.py`), checked against its
natural-language specification.

The development shallowly embeds the coordinator: the JSON wire values the
integration exchanges (integer numerics, the fragment this integration's
traffic uses), a model of Python's `json.dumps`/`json.loads` on that
fragment, the coordinator's state dictionary as a structure, and each
`_handle_*` method as a pure state transformer.  Python exceptions that
`_handle_message` catches and logs are modelled as the identity
transformation (they are raised before any state mutation in every
handler, so a swallowed exception leaves the state unchanged).  Wall-clock
timestamps (`dt_util.utcnow()`) are modelled as an abstract `Nat` clock
value passed to each dispatch; Python float arithmetic on the volume
(`wire / 100.0`) is modelled exactly over `ℚ`.
-/

namespace Pianobar

/-- A JSON value, with integer numerics: the fragment of JSON exercised by
the integration's wire protocol (Python-side payloads are null, booleans,
integers, strings, arrays and objects). -/
inductive Json where
  | null
  | bool (b : Bool)
  | num (n : Int)
  | str (s : String)
  | arr (elems : List Json)
  | obj (fields : List (String × Json))

/-! ## `json.dumps` (Python's default encoder, `ensure_ascii=True`) -/

/-- Hexadecimal digit character for `n < 16`, lowercase as CPython emits. -/
def hexCh (n : Nat) : Char :=
  if n < 10 then Char.ofNat (48 + n) else Char.ofNat (87 + n)

/-- A `\uXXXX` escape for the code unit `n < 0x10000`. -/
def uEscape (n : Nat) : List Char :=
  ['\\', 'u', hexCh (n / 4096 % 16), hexCh (n / 256 % 16),
   hexCh (n / 16 % 16), hexCh (n % 16)]

/-- One character as Python's `json.dumps` emits it inside a string literal
(`ensure_ascii=True`): the two mandatory escapes, the five short control
escapes, `\uXXXX` for other control and non-ASCII characters (as a
surrogate pair above the BMP), and the character itself otherwise. -/
def escapeCh (c : Char) : List Char :=
  if c = '"' then ['\\', '"']
  else if c = '\\' then ['\\', '\\']
  else if c = '\n' then ['\\', 'n']
  else if c = '\t' then ['\\', 't']
  else if c = '\r' then ['\\', 'r']
  else if c = Char.ofNat 8 then ['\\', 'b']
  else if c = Char.ofNat 12 then ['\\', 'f']
  else if c.toNat < 32 ∨ 126 < c.toNat then
    if c.toNat < 65536 then uEscape c.toNat
    else uEscape (55296 + (c.toNat - 65536) / 1024) ++
         uEscape (56320 + (c.toNat - 65536) % 1024)
  else [c]

/-- Decimal digit characters, most significant first; the recursion is
structural on a fuel bound (any `fuel ≥ n` gives the digits of `n`, see
`natChs_eq`), so the definition reduces in the kernel. -/
def natChsAux : Nat → Nat → List Char
  | 0, n => [Char.ofNat (48 + n % 10)]
  | fuel + 1, n =>
      if n < 10 then [Char.ofNat (48 + n)]
      else natChsAux fuel (n / 10) ++ [Char.ofNat (48 + n % 10)]

/-- Decimal digit characters of a natural number, most significant first. -/
def natChs (n : Nat) : List Char := natChsAux n n

/-- An integer as Python prints it: optional minus sign, then digits. -/
def intChs (i : Int) : List Char :=
  if i < 0 then '-' :: natChs i.natAbs else natChs i.natAbs

/-- A string literal's characters: quote, escaped body, quote. -/
def strChs (s : String) : List Char :=
  '"' :: ((s.toList.map escapeCh).flatten ++ ['"'])

mutual
/-- Characters of `json.dumps(v)` with CPython's default separators
(`", "` between items, `": "` after keys). -/
def dumpChs : Json → List Char
  | .null => 'n' :: 'u' :: 'l' :: 'l' :: []
  | .bool true => 't' :: 'r' :: 'u' :: 'e' :: []
  | .bool false => 'f' :: 'a' :: 'l' :: 's' :: 'e' :: []
  | .num n => intChs n
  | .str s => strChs s
  | .arr es => '[' :: (dumpItems es ++ [']'])
  | .obj fs => '{' :: (dumpFields fs ++ ['}'])
/-- Array items joined by `", "`. -/
def dumpItems : List Json → List Char
  | [] => []
  | e :: es => dumpChs e ++ dumpItemsTail es
/-- The `", "`-separated continuation of an item list. -/
def dumpItemsTail : List Json → List Char
  | [] => []
  | e :: es => ',' :: ' ' :: (dumpChs e ++ dumpItemsTail es)
/-- Object members `"key": value` joined by `", "`. -/
def dumpFields : List (String × Json) → List Char
  | [] => []
  | (k, v) :: fs => strChs k ++ ':' :: ' ' :: (dumpChs v ++ dumpFieldsTail fs)
/-- The `", "`-separated continuation of a member list. -/
def dumpFieldsTail : List (String × Json) → List Char
  | [] => []
  | (k, v) :: fs =>
      ',' :: ' ' :: (strChs k ++ ':' :: ' ' :: (dumpChs v ++ dumpFieldsTail fs))
end

/-- `json.dumps` on the embedded fragment. -/
def jsonDumps (j : Json) : String := ⟨dumpChs j⟩

/-! ## `json.loads` (Python's default decoder, on the same fragment) -/

/-- The four whitespace characters `json.loads` skips. -/
def isJsonWs (c : Char) : Bool := c = ' ' || c = '\t' || c = '\n' || c = '\r'

/-- Drop leading JSON whitespace. -/
def dropWs : List Char → List Char
  | [] => []
  | c :: cs => if isJsonWs c then dropWs cs else c :: cs

/-- Decimal digit test. -/
def isDig (c : Char) : Bool := 48 ≤ c.toNat && c.toNat ≤ 57

/-- Split off the longest leading run of decimal digits. -/
def spanDigs : List Char → List Char × List Char
  | [] => ([], [])
  | c :: cs =>
      if isDig c then
        let p := spanDigs cs
        (c :: p.1, p.2)
      else ([], c :: cs)

/-- The natural number a digit run denotes. -/
def digsVal (ds : List Char) : Nat :=
  ds.foldl (fun a c => a * 10 + (c.toNat - 48)) 0

/-- True when a character would continue a numeric token as a float
(`.`, `e`, `E`): the embedding covers only integer numerics, so such a
continuation makes the parse fail rather than misread the number. -/
def floatCont : List Char → Bool
  | [] => false
  | c :: _ => c = '.' || c = 'e' || c = 'E'

/-- Parse an unsigned integer token (one or more digits). -/
def readNat (cs : List Char) : Option (Nat × List Char) :=
  match spanDigs cs with
  | ([], _) => none
  | (ds, rest) => if floatCont rest then none else some (digsVal ds, rest)

/-- Parse an integer token (optional `-`, then digits). -/
def readInt : List Char → Option (Int × List Char)
  | [] => none
  | c :: cs =>
      if c = '-' then (readNat cs).map (fun p => (-(p.1 : Int), p.2))
      else (readNat (c :: cs)).map (fun p => ((p.1 : Int), p.2))

/-- The value of one hexadecimal digit character, either case. -/
def hexChVal (c : Char) : Option Nat :=
  if 48 ≤ c.toNat ∧ c.toNat ≤ 57 then some (c.toNat - 48)
  else if 97 ≤ c.toNat ∧ c.toNat ≤ 102 then some (c.toNat - 87)
  else if 65 ≤ c.toNat ∧ c.toNat ≤ 70 then some (c.toNat - 55)
  else none

/-- The code unit of a four-digit hex escape. -/
def hexQuad (a b c d : Char) : Option Nat :=
  match hexChVal a, hexChVal b, hexChVal c, hexChVal d with
  | some x, some y, some z, some w => some (((x * 16 + y) * 16 + z) * 16 + w)
  | _, _, _, _ => none

/-- The character a one-letter escape denotes. -/
def shortEscape : Char → Option Char
  | '"' => some '"'
  | '\\' => some '\\'
  | '/' => some '/'
  | 'b' => some (Char.ofNat 8)
  | 'f' => some (Char.ofNat 12)
  | 'n' => some '\n'
  | 'r' => some '\r'
  | 't' => some '\t'
  | _ => none

/-- Parse a `\uXXXX` escape after the `u`: four hex digits giving one code
unit; a high surrogate must be followed by a `\uXXXX` low surrogate, the
two combining into one scalar, as `json.loads` does. -/
def readUniEsc : List Char → Option (Char × List Char)
  | a :: b :: c :: d :: rest =>
      (hexQuad a b c d).bind (fun w =>
        if 55296 ≤ w ∧ w ≤ 56319 then
          match rest with
          | '\\' :: 'u' :: a2 :: b2 :: c2 :: d2 :: rest2 =>
              (hexQuad a2 b2 c2 d2).bind (fun y =>
                if 56320 ≤ y ∧ y ≤ 57343 then
                  some (Char.ofNat (65536 + (w - 55296) * 1024 + (y - 56320)), rest2)
                else none)
          | _ => none
        else some (Char.ofNat w, rest))
  | _ => none

/-- Parse one escape sequence after its backslash. -/
def readOneEsc : List Char → Option (Char × List Char)
  | [] => none
  | e :: rest =>
      if e = 'u' then readUniEsc rest
      else (shortEscape e).map (fun ch => (ch, rest))

/-- Parse a string body after the opening quote, accumulating reversed
characters.  Every step consumes at least one input character, so any
`fuel` beyond the input length is enough; callers pass the remaining
input's length. -/
def readStrBody : Nat → List Char → List Char → Option (String × List Char)
  | 0, _, _ => none
  | fuel + 1, acc, cs =>
      match cs with
      | [] => none
      | c :: rest =>
          if c = '"' then some (⟨acc.reverse⟩, rest)
          else if c = '\\' then
            (readOneEsc rest).bind (fun p => readStrBody fuel (p.1 :: acc) p.2)
          else readStrBody fuel (c :: acc) rest

mutual
/-- Parse one JSON value; `fuel` strictly decreases on every recursive
call, and `jsonLoads` supplies more fuel than the input's length. -/
def readVal : Nat → List Char → Option (Json × List Char)
  | 0, _ => none
  | fuel + 1, cs =>
      match dropWs cs with
      | 'n' :: 'u' :: 'l' :: 'l' :: rest => some (.null, rest)
      | 't' :: 'r' :: 'u' :: 'e' :: rest => some (.bool true, rest)
      | 'f' :: 'a' :: 'l' :: 's' :: 'e' :: rest => some (.bool false, rest)
      | '"' :: rest =>
          (readStrBody (rest.length + 1) [] rest).map (fun p => (.str p.1, p.2))
      | '[' :: rest =>
          match dropWs rest with
          | ']' :: rest2 => some (.arr [], rest2)
          | cs2 => (readItems fuel cs2).map (fun p => (.arr p.1, p.2))
      | '{' :: rest =>
          match dropWs rest with
          | '}' :: rest2 => some (.obj [], rest2)
          | cs2 => (readFields fuel cs2).map (fun p => (.obj p.1, p.2))
      | cs1 => (readInt cs1).map (fun p => (.num p.1, p.2))
/-- Parse the one-or-more comma-separated items of a non-empty array,
consuming the closing bracket. -/
def readItems : Nat → List Char → Option (List Json × List Char)
  | 0, _ => none
  | fuel + 1, cs =>
      (readVal fuel cs).bind (fun vp =>
        match dropWs vp.2 with
        | ',' :: rest2 => (readItems fuel rest2).map (fun p => (vp.1 :: p.1, p.2))
        | ']' :: rest2 => some ([vp.1], rest2)
        | _ => none)
/-- Parse the one-or-more members of a non-empty object, consuming the
closing brace. -/
def readFields : Nat → List Char → Option (List (String × Json) × List Char)
  | 0, _ => none
  | fuel + 1, cs =>
      match dropWs cs with
      | '"' :: rest =>
          (readStrBody (rest.length + 1) [] rest).bind (fun kp =>
            match dropWs kp.2 with
            | ':' :: rest2 =>
                (readVal fuel rest2).bind (fun vp =>
                  match dropWs vp.2 with
                  | ',' :: rest4 =>
                      (readFields fuel rest4).map (fun p => ((kp.1, vp.1) :: p.1, p.2))
                  | '}' :: rest4 => some ([(kp.1, vp.1)], rest4)
                  | _ => none)
            | _ => none)
      | _ => none
end

/-- `json.loads` on a character list: parse one value and require only
whitespace to follow. -/
def loadsChars (cs : List Char) : Option Json :=
  match readVal (cs.length + 1) cs with
  | some (j, rest) => if dropWs rest = [] then some j else none
  | none => none

/-- `json.loads` on the embedded fragment. -/
def jsonLoads (s : String) : Option Json := loadsChars s.toList

/-! ## The coordinator's state dictionary

`PianobarCoordinator.__init__` seeds `self.data` with seven keys that no
handler ever deletes (`playing`, `paused`, `volume`, `maxGain`, `station`,
`stationId`, `stations`) and the handlers add or delete three optional
keys (`song`, `elapsed`, `position_updated_at`).  The dictionary is
embedded as a structure: the permanent keys as fields holding the raw
stored value, the optional keys as `Option` fields.  `volume` holds
`wire / 100.0`, modelled exactly in `ℚ`; `position_updated_at` holds the
abstract clock value passed to the dispatch. -/
structure CoordState where
  playing : Json
  paused : Json
  volume : ℚ
  maxGain : Json
  station : Json
  stationId : Json
  stations : Json
  song : Option Json
  elapsed : Option Json
  position_updated_at : Option Nat

/-- The state `PianobarCoordinator.__init__` constructs (coordinator.py,
lines 44-52). -/
def initState : CoordState :=
  { playing := .bool false
    paused := .bool false
    volume := 0
    maxGain := .num 10
    station := .str ""
    stationId := .str ""
    stations := .arr []
    song := none
    elapsed := none
    position_updated_at := none }

/-- `payload.get(key)` on a decoded JSON object: the value of the last
binding of `key` (later duplicate keys overwrite earlier ones when
`json.loads` builds the dict), or `None`. -/
def jget (fs : List (String × Json)) (key : String) : Option Json :=
  fs.foldl (fun acc kv => if kv.1 = key then some kv.2 else acc) none

/-- `payload.get(key, default)`. -/
def jgetD (fs : List (String × Json)) (key : String) (dflt : Json) : Json :=
  (jget fs key).getD dflt

/-- `key in payload`. -/
def jhas (fs : List (String × Json)) (key : String) : Bool :=
  (jget fs key).isSome

/-- Python truthiness of a stored JSON value, as `if self.data.get(...)`
and `if payload.get(...)` evaluate it. -/
def truthy : Json → Bool
  | .null => false
  | .bool b => b
  | .num n => n != 0
  | .str s => s.length != 0
  | .arr es => !es.isEmpty
  | .obj fs => !fs.isEmpty

/-- Truthiness of `payload.get(key)` (missing key gives `None`, falsy). -/
def truthyOpt : Option Json → Bool
  | some v => truthy v
  | none => false

/-- The numeric value Python's `x / 100.0` accepts: integers and booleans
divide (`True` is `1`), anything else raises `TypeError`. -/
def pyNumber : Json → Option ℚ
  | .num n => some (n : ℚ)
  | .bool b => some (if b then 1 else 0)
  | _ => none

/-! ## The event handlers

Each `_handle_*` method becomes a pure `CoordState → CoordState`.  Where
the Python body would raise on an ill-typed payload (`payload.get` on a
non-dict, division of a non-number), the exception is raised before any
mutation and `_handle_message` swallows it, so the model returns the state
unchanged. -/

/-- `_handle_process_event` (full state refresh), coordinator.py 208-225.
The `data.update({...})` dict literal evaluates `wire_volume / 100.0`
before any key is written, so a non-numeric volume leaves everything
unchanged. -/
def handle_process_event (now : Nat) (payload : Json) (s : CoordState) : CoordState :=
  match payload with
  | .obj fs =>
      match pyNumber (jgetD fs "volume" (.num 0)) with
      | none => s
      | some wire =>
          let s1 : CoordState :=
            { s with
              playing := jgetD fs "playing" (.bool false)
              paused := jgetD fs "paused" (.bool false)
              volume := wire / 100
              maxGain := jgetD fs "maxGain" (.num 10)
              station := jgetD fs "station" (.str "")
              stationId := jgetD fs "stationId" (.str "") }
          if truthyOpt (jget fs "playing") && jhas fs "song" then
            let s2 : CoordState := { s1 with song := jget fs "song" }
            if jhas fs "elapsed" then
              { s2 with elapsed := jget fs "elapsed", position_updated_at := some now }
            else s2
          else s1
  | _ => s

/-- `_handle_start_event` (new song started), coordinator.py 227-237. -/
def handle_start_event (now : Nat) (payload : Json) (s : CoordState) : CoordState :=
  match payload with
  | .obj fs =>
      { s with
        playing := .bool true
        paused := .bool false
        song := some (.obj fs)
        elapsed := some (.num 0)
        position_updated_at := some now
        station := jgetD fs "station" (.str "")
        stationId := jgetD fs "stationId" (.str "") }
  | _ => s

/-- `_handle_stop_event` (song ended/skipped), coordinator.py 239-245:
sets `playing` to `False` and deletes `song` and `elapsed`; it does not
touch `paused` or `position_updated_at`. -/
def handle_stop_event (s : CoordState) : CoordState :=
  { s with playing := .bool false, song := none, elapsed := none }

/-- `_clear_playback_state`, coordinator.py 270-280: used by the `stopped`
event and by the listen loop's connection-loss path. -/
def clear_playback_state (s : CoordState) : CoordState :=
  { s with
    playing := .bool false
    paused := .bool false
    station := .null
    stationId := .null
    song := none
    elapsed := none
    position_updated_at := none }

/-- `_handle_stopped_event`, coordinator.py 247-249 (payload unused). -/
def handle_stopped_event (_payload : Json) (s : CoordState) : CoordState :=
  clear_playback_state s

/-- `_handle_progress_event`, coordinator.py 251-255: a no-op unless the
stored `playing` value is truthy. -/
def handle_progress_event (now : Nat) (payload : Json) (s : CoordState) : CoordState :=
  if truthy s.playing then
    match payload with
    | .obj fs =>
        { s with
          elapsed := some (jgetD fs "elapsed" (.num 0))
          position_updated_at := some now }
    | _ => s
  else s

/-- `_handle_volume_event`, coordinator.py 257-260: `payload / 100.0` with
a bare numeric payload. -/
def handle_volume_event (payload : Json) (s : CoordState) : CoordState :=
  match pyNumber payload with
  | some wire => { s with volume := wire / 100 }
  | none => s

/-- `_handle_play_state_event`, coordinator.py 262-264. -/
def handle_play_state_event (payload : Json) (s : CoordState) : CoordState :=
  match payload with
  | .obj fs => { s with paused := jgetD fs "paused" (.bool false) }
  | _ => s

/-- `_handle_stations_event`, coordinator.py 266-268: stores the payload
as-is. -/
def handle_stations_event (payload : Json) (s : CoordState) : CoordState :=
  { s with stations := payload }

/-- The event dispatch of `_handle_message`, coordinator.py 182-198: the
decoded `event_data[0]` is compared against the eight known event names
(`==` on a non-string never matches a string literal); unmatched names
fall through with no effect. -/
def dispatch_event (now : Nat) (name payload : Json) (s : CoordState) : CoordState :=
  match name with
  | .str e =>
      if e = "process" then handle_process_event now payload s
      else if e = "start" then handle_start_event now payload s
      else if e = "stop" then handle_stop_event s
      else if e = "stopped" then handle_stopped_event payload s
      else if e = "progress" then handle_progress_event now payload s
      else if e = "volume" then handle_volume_event payload s
      else if e = "playState" then handle_play_state_event payload s
      else if e = "stations" then handle_stations_event payload s
      else s
  | _ => s

/-- The decode step of `_handle_message`, coordinator.py 163-178: frames
not starting with `"2"` are ignored, the remainder must be valid JSON
(a `json.JSONDecodeError` is logged and swallowed), and the parsed value
must be a list of at least two elements; `event_data[0]` and
`event_data[1]` are the name and payload. -/
def decode_frame (message : String) : Option (Json × Json) :=
  match message.toList with
  | '2' :: rest =>
      match loadsChars rest with
      | some (.arr (name :: payload :: _)) => some (name, payload)
      | _ => none
  | _ => none

/-- `_handle_message`, coordinator.py 163-206: decode, then dispatch; any
frame the decode step rejects leaves the coordinator's state unchanged. -/
def handle_message (now : Nat) (message : String) (s : CoordState) : CoordState :=
  match decode_frame message with
  | some (name, payload) => dispatch_event now name payload s
  | none => s

/-- A sequence of inbound frames dispatched in order, each with the clock
value at which it arrives. -/
def run_messages (msgs : List (Nat × String)) (s : CoordState) : CoordState :=
  msgs.foldl (fun st m => handle_message m.1 m.2 st) s

/-- `send_event`, coordinator.py 282-294: the outgoing frame is the
f-string `2["{event_name}",{json.dumps(payload)}]` — the event name is
interpolated raw, without JSON escaping; only the payload goes through
`json.dumps`. -/
def send_event_frame (event_name : String) (payload : Json) : String :=
  ⟨'2' :: '[' :: '"' :: (event_name.toList ++ '"' :: ',' :: (dumpChs payload ++ [']']))⟩

/-! ## Connection manager constants and reconnect backoff

`const.py` 13-15 and `_reconnect`, coordinator.py 143-162. -/

def WS_CONNECT_TIMEOUT : Nat := 10
def WS_RECONNECT_DELAY : Nat := 5
def WS_MAX_RECONNECT_DELAY : Nat := 300

/-- One failed reconnect attempt's backoff update, coordinator.py 159-161:
`min(self._reconnect_delay * 2, WS_MAX_RECONNECT_DELAY)`. -/
def next_reconnect_delay (d : Nat) : Nat := min (d * 2) WS_MAX_RECONNECT_DELAY

/-- The delay the reconnect loop sleeps before attempt `k`, counting the
failed attempts so far: `__init__` (line 40) and every successful
`async_connect` (line 74) start it at `WS_RECONNECT_DELAY`, and each
failure applies `next_reconnect_delay`. -/
def delay_after_failures : Nat → Nat
  | 0 => WS_RECONNECT_DELAY
  | k + 1 => next_reconnect_delay (delay_after_failures k)

/-- The slice of connection state the backoff logic owns. -/
structure ConnState where
  reconnect_delay : Nat

/-- A successful `async_connect` resets the delay (coordinator.py 74). -/
def on_connect_success (c : ConnState) : ConnState :=
  { c with reconnect_delay := WS_RECONNECT_DELAY }

/-- A failed attempt inside `_reconnect` doubles the delay up to the
ceiling (coordinator.py 159-161). -/
def on_reconnect_failure (c : ConnState) : ConnState :=
  { c with reconnect_delay := next_reconnect_delay c.reconnect_delay }

/-! ## The Pending Response Table and the Response Waiter

`__init__.py` (e.g. `async_explain_song`, lines 130-137) and the tests
(`test_coordinator.py` 250-414) use `coordinator._response_data`,
`coordinator.get_response_data(key)` and
`coordinator.wait_for_response(key, timeout)`, but `coordinator.py` under
`src/` defines none of them: the waiter is modelled from the spec. -/

/-- The Pending Response Table: a mapping from logical response key to the
most recently received value. -/
abbrev RespTable := List (String × Json)

/-- Lookup in the table. -/
def tableGet (t : RespTable) (key : String) : Option Json :=
  t.foldl (fun acc kv => if kv.1 = key then some kv.2 else acc) none

/-- Remove every binding of `key` (a dict `pop`). -/
def tableDrop (t : RespTable) (key : String) : RespTable :=
  t.filter (fun kv => kv.1 != key)

/-- Modelled from the spec: `wait_for_response(key, timeout)` is called by
`__init__.py` and the tests but is absent from `coordinator.py` under
`src/`.  Spec §4.5: it "polls the Pending Response Table for `key` at a
short fixed interval until present or until `timeout` elapses; on success,
removes and returns the value", and "returns null on timeout without
error".  `tables t` is the table's contents at poll tick `t` (the listen
loop may add entries between polls), and `fuel` is the number of polls the
timeout allows; the result on success carries the table after the
read-and-clear. -/
def wait_for_response (tables : Nat → RespTable) (key : String) :
    Nat → Nat → Option (Json × RespTable)
  | _, 0 => none
  | t, fuel + 1 =>
      match tableGet (tables t) key with
      | some v => some (v, tableDrop (tables t) key)
      | none => wait_for_response tables key (t + 1) fuel

/-! ## Auxiliary predicates used in theorem statements -/

/-- A remainder that cannot extend a rendered integer token: empty, or
headed by a character that is neither a digit nor a float continuation.
Every delimiter the printer emits after a number (`,`, `]`, `}`, end of
input) qualifies. -/
def numDelimiter : List Char → Bool
  | [] => true
  | c :: _ => !(isDig c || c = '.' || c = 'e' || c = 'E')

/-- Printable ASCII other than the quote and the backslash: exactly the
characters `json.dumps` passes through a string literal unescaped. -/
def plainCh (c : Char) : Bool :=
  32 ≤ c.toNat && c.toNat ≤ 126 && c != '"' && c != '\\'

/-- Whether a decoded JSON document has the shape `_handle_message`
dispatches: a list of at least two elements. -/
def eventShape : Json → Bool
  | .arr (_ :: _ :: _) => true
  | _ => false

/-- The elapsed/timestamp coupling the handlers maintain: a stored
`elapsed` value always has a `position_updated_at` alongside it (the
converse fails: `_handle_stop_event` deletes `elapsed` but not
`position_updated_at`). -/
def elapsedTsInv (s : CoordState) : Bool :=
  !s.elapsed.isSome || s.position_updated_at.isSome

end Pianobar

/-! # Theorems -/

namespace Pianobar

/-! ## Decimal digits -/

theorem digitCh_isDig : ∀ d : Nat, d < 10 → isDig (Char.ofNat (48 + d)) = true := by
  decide

theorem digitCh_toNat : ∀ d : Nat, d < 10 → (Char.ofNat (48 + d)).toNat = 48 + d := by
  decide

theorem isDig_not_special {c : Char} (h : isDig c = true) :
    isJsonWs c = false ∧ c ≠ '-' ∧ c ≠ '.' ∧ c ≠ 'e' ∧ c ≠ 'E' ∧ c ≠ 'n' ∧
      c ≠ 't' ∧ c ≠ 'f' ∧ c ≠ '"' ∧ c ≠ '[' ∧ c ≠ '{' ∧ c ≠ ']' ∧ c ≠ '}' := by
  have hv : 48 ≤ c.toNat ∧ c.toNat ≤ 57 := by
    simp only [isDig, Bool.and_eq_true, decide_eq_true_eq] at h
    exact h
  refine ⟨?_, ?_, ?_, ?_, ?_, ?_, ?_, ?_, ?_, ?_, ?_, ?_, ?_⟩
  · simp only [isJsonWs, Bool.or_eq_false_iff, decide_eq_false_iff_not]
    refine ⟨⟨⟨?_, ?_⟩, ?_⟩, ?_⟩ <;> (intro hc; subst hc; revert hv; decide)
  all_goals (intro hc; subst hc; revert hv; decide)

theorem natChsAux_congr : ∀ f g n : Nat, n ≤ f → n ≤ g →
    natChsAux f n = natChsAux g n := by
  intro f
  induction f with
  | zero =>
      intro g n hf _
      have hn : n = 0 := by omega
      subst hn
      cases g with
      | zero => rfl
      | succ g => simp [natChsAux]
  | succ f ih =>
      intro g n hf hg
      cases g with
      | zero =>
          have hn : n = 0 := by omega
          subst hn
          simp [natChsAux]
      | succ g =>
          by_cases h : n < 10
          · simp [natChsAux, h]
          · simp only [natChsAux, if_neg h]
            have hd : n / 10 < n := Nat.div_lt_self (by omega) (by omega)
            rw [ih g (n / 10) (by omega) (by omega)]

/-- The recursion `natChs` implements, fuel-free. -/
theorem natChs_eq (n : Nat) :
    natChs n = if n < 10 then [Char.ofNat (48 + n)]
               else natChs (n / 10) ++ [Char.ofNat (48 + n % 10)] := by
  by_cases h : n < 10
  · rw [if_pos h]
    unfold natChs
    cases n with
    | zero => simp [natChsAux]
    | succ k => simp [natChsAux, h]
  · rw [if_neg h]
    unfold natChs
    obtain ⟨k, rfl⟩ : ∃ k, n = k + 1 := ⟨n - 1, by omega⟩
    simp only [natChsAux, if_neg h]
    have hd : (k + 1) / 10 < k + 1 := Nat.div_lt_self (by omega) (by omega)
    rw [natChsAux_congr k ((k + 1) / 10) ((k + 1) / 10) (by omega) (by omega)]

theorem natChs_digits (n : Nat) : ∀ c ∈ natChs n, isDig c = true := by
  induction n using Nat.strongRecOn with
  | _ n ih =>
    rw [natChs_eq]
    by_cases h : n < 10
    · simp only [if_pos h, List.mem_singleton]
      intro c hc
      subst hc
      exact digitCh_isDig n h
    · simp only [if_neg h]
      intro c hc
      rcases List.mem_append.mp hc with hl | hr
      · exact ih (n / 10) (Nat.div_lt_self (by omega) (by omega)) c hl
      · rw [List.mem_singleton] at hr
        subst hr
        exact digitCh_isDig (n % 10) (Nat.mod_lt _ (by omega))

theorem natChs_ne_nil (n : Nat) : natChs n ≠ [] := by
  rw [natChs_eq]
  split <;> simp

theorem natChs_cons (n : Nat) :
    ∃ c t, natChs n = c :: t ∧ isDig c = true := by
  match h : natChs n with
  | [] => exact absurd h (natChs_ne_nil n)
  | c :: t =>
      exact ⟨c, t, rfl, natChs_digits n c (h ▸ List.mem_cons_self c t)⟩

theorem digsVal_snoc (ds : List Char) (c : Char) :
    digsVal (ds ++ [c]) = digsVal ds * 10 + (c.toNat - 48) := by
  simp [digsVal, List.foldl_append]

theorem digsVal_natChs (n : Nat) : digsVal (natChs n) = n := by
  induction n using Nat.strongRecOn with
  | _ n ih =>
    rw [natChs_eq]
    by_cases h : n < 10
    · simp only [if_pos h]
      simp [digsVal, digitCh_toNat n h]
    · simp only [if_neg h]
      rw [digsVal_snoc, ih (n / 10) (Nat.div_lt_self (by omega) (by omega)),
          digitCh_toNat (n % 10) (Nat.mod_lt _ (by omega))]
      omega

/-! ## Integer token inversion -/

theorem numDelimiter_facts {cs : List Char} (h : numDelimiter cs = true) :
    spanDigs cs = ([], cs) ∧ floatCont cs = false := by
  cases cs with
  | nil => exact ⟨rfl, rfl⟩
  | cons c t =>
      simp only [numDelimiter, Bool.not_eq_true', Bool.or_eq_false_iff,
        decide_eq_false_iff_not] at h
      exact ⟨by simp [spanDigs, h.1.1.1], by
        simp [floatCont, h.1.1.2, h.1.2, h.2]⟩

theorem spanDigs_run (ds : List Char) (hds : ∀ c ∈ ds, isDig c = true)
    (rest : List Char) (hrest : spanDigs rest = ([], rest)) :
    spanDigs (ds ++ rest) = (ds, rest) := by
  induction ds with
  | nil => simpa using hrest
  | cons c t ih =>
      have hc : isDig c = true := hds c (List.mem_cons_self c t)
      have ht := ih (fun x hx => hds x (List.mem_cons_of_mem c hx))
      simp [spanDigs, hc, ht]

theorem readNat_natChs (n : Nat) (rest : List Char)
    (h : numDelimiter rest = true) :
    readNat (natChs n ++ rest) = some (n, rest) := by
  obtain ⟨hspan, hfloat⟩ := numDelimiter_facts h
  unfold readNat
  rw [spanDigs_run (natChs n) (natChs_digits n) rest hspan]
  obtain ⟨c, t, hct, _⟩ := natChs_cons n
  rw [hct]
  simp only [hfloat, if_neg]
  rw [← hct, digsVal_natChs]
  simp

theorem isDig_ne_minus {c : Char} (h : isDig c = true) : c ≠ '-' :=
  (isDig_not_special h).2.1

theorem readInt_intChs (i : Int) (rest : List Char)
    (h : numDelimiter rest = true) :
    readInt (intChs i ++ rest) = some (i, rest) := by
  unfold intChs
  by_cases hi : i < 0
  · simp only [if_pos hi, List.cons_append]
    simp only [readInt, if_pos rfl]
    rw [readNat_natChs i.natAbs rest h]
    show some (-(i.natAbs : Int), rest) = some (i, rest)
    have hv : -(i.natAbs : Int) = i := by omega
    rw [hv]
  · simp only [if_neg hi]
    obtain ⟨c, t, hct, hd⟩ := natChs_cons i.natAbs
    rw [hct, List.cons_append]
    simp only [readInt, if_neg (isDig_ne_minus hd)]
    rw [← List.cons_append, ← hct, readNat_natChs i.natAbs rest h]
    show some ((i.natAbs : Int), rest) = some (i, rest)
    have hv : (i.natAbs : Int) = i := by omega
    rw [hv]

/-! ## String escape inversion -/

theorem charValidNat (c : Char) :
    c.toNat < 55296 ∨ (57343 < c.toNat ∧ c.toNat < 1114112) := by
  have h := c.valid
  simp [UInt32.isValidChar, Nat.isValidChar] at h
  rcases h with h | h
  · exact Or.inl h
  · exact Or.inr h

theorem hexChVal_hexCh : ∀ d : Nat, d < 16 → hexChVal (hexCh d) = some d := by
  decide

theorem hexQuad_uEscape (n : Nat) (h : n < 65536) :
    hexQuad (hexCh (n / 4096 % 16)) (hexCh (n / 256 % 16))
      (hexCh (n / 16 % 16)) (hexCh (n % 16)) = some n := by
  unfold hexQuad
  rw [hexChVal_hexCh _ (Nat.mod_lt _ (by omega)),
      hexChVal_hexCh _ (Nat.mod_lt _ (by omega)),
      hexChVal_hexCh _ (Nat.mod_lt _ (by omega)),
      hexChVal_hexCh _ (Nat.mod_lt _ (by omega))]
  show some _ = some n
  congr 1
  omega


theorem readOneEsc_short (e ch : Char) (rest : List Char) (he : e ≠ 'u')
    (hs : shortEscape e = some ch) :
    readOneEsc (e :: rest) = some (ch, rest) := by
  rw [readOneEsc, if_neg he, hs, Option.map_some']

theorem readStrBody_escape (c : Char) (fuel : Nat) (acc rest : List Char) :
    readStrBody (fuel + 1) acc (escapeCh c ++ rest) =
      readStrBody fuel (c :: acc) rest := by
  unfold escapeCh
  by_cases h1 : c = '"'
  · subst h1
    rw [if_pos rfl, List.cons_append, List.cons_append, List.nil_append, readStrBody]
    simp only []
    rw [if_pos trivial, readOneEsc_short '"' '"' rest (by decide) rfl, Option.some_bind]
    rw [if_neg (by decide : ¬('\\' : Char) = '\"')]
  rw [if_neg h1]
  by_cases h2 : c = '\\'
  · subst h2
    rw [if_pos rfl, List.cons_append, List.cons_append, List.nil_append, readStrBody]
    simp only []
    rw [if_pos trivial, readOneEsc_short '\\' '\\' rest (by decide) rfl, Option.some_bind]
    rw [if_neg (by decide : ¬('\\' : Char) = '\"')]
  rw [if_neg h2]
  by_cases h3 : c = '\n'
  · subst h3
    rw [if_pos rfl, List.cons_append, List.cons_append, List.nil_append, readStrBody]
    simp only []
    rw [if_pos trivial, readOneEsc_short 'n' '\n' rest (by decide) rfl, Option.some_bind]
    rw [if_neg (by decide : ¬('\\' : Char) = '\"')]
  rw [if_neg h3]
  by_cases h4 : c = '\t'
  · subst h4
    rw [if_pos rfl, List.cons_append, List.cons_append, List.nil_append, readStrBody]
    simp only []
    rw [if_pos trivial, readOneEsc_short 't' '\t' rest (by decide) rfl, Option.some_bind]
    rw [if_neg (by decide : ¬('\\' : Char) = '\"')]
  rw [if_neg h4]
  by_cases h5 : c = '\r'
  · subst h5
    rw [if_pos rfl, List.cons_append, List.cons_append, List.nil_append, readStrBody]
    simp only []
    rw [if_pos trivial, readOneEsc_short 'r' '\r' rest (by decide) rfl, Option.some_bind]
    rw [if_neg (by decide : ¬('\\' : Char) = '\"')]
  rw [if_neg h5]
  by_cases h6 : c = Char.ofNat 8
  · subst h6
    rw [if_pos rfl, List.cons_append, List.cons_append, List.nil_append, readStrBody]
    simp only []
    rw [if_pos trivial, readOneEsc_short 'b' (Char.ofNat 8) rest (by decide) rfl, Option.some_bind]
    rw [if_neg (by decide : ¬('\\' : Char) = '\"')]
  rw [if_neg h6]
  by_cases h7 : c = Char.ofNat 12
  · subst h7
    rw [if_pos rfl, List.cons_append, List.cons_append, List.nil_append, readStrBody]
    simp only []
    rw [if_pos trivial, readOneEsc_short 'f' (Char.ofNat 12) rest (by decide) rfl, Option.some_bind]
    rw [if_neg (by decide : ¬('\\' : Char) = '\"')]
  rw [if_neg h7]
  by_cases h8 : c.toNat < 32 ∨ 126 < c.toNat
  · rw [if_pos h8]
    by_cases h9 : c.toNat < 65536
    · rw [if_pos h9]
      simp only [uEscape, List.cons_append, List.nil_append]
      rw [readStrBody]
      simp only []
      rw [if_pos trivial]
      rw [readOneEsc, if_pos rfl]
      rw [readUniEsc, hexQuad_uEscape c.toNat h9, Option.some_bind]
      have hsur : ¬(55296 ≤ c.toNat ∧ c.toNat ≤ 56319) := by
        rcases charValidNat c with hv | hv <;> omega
      rw [if_neg hsur, Option.some_bind, Char.ofNat_toNat,
          if_neg (by decide : ¬('\\' : Char) = '"')]
    · rw [if_neg h9]
      have hn : 65536 ≤ c.toNat ∧ c.toNat < 1114112 := by
        rcases charValidNat c with hv | hv <;> omega
      have hhi : 55296 + (c.toNat - 65536) / 1024 < 65536 := by omega
      have hmod := Nat.mod_lt (c.toNat - 65536) (y := 1024) (by omega)
      have hlo : 56320 + (c.toNat - 65536) % 1024 < 65536 := by omega
      simp only [uEscape, List.append_assoc, List.cons_append, List.nil_append]
      rw [readStrBody]
      simp only []
      rw [if_pos trivial]
      rw [readOneEsc, if_pos rfl]
      rw [readUniEsc, hexQuad_uEscape _ hhi, Option.some_bind]
      have hsur : 55296 ≤ 55296 + (c.toNat - 65536) / 1024 ∧
          55296 + (c.toNat - 65536) / 1024 ≤ 56319 := by omega
      rw [if_pos hsur]
      simp only []
      rw [hexQuad_uEscape _ hlo, Option.some_bind]
      have hsur2 : 56320 ≤ 56320 + (c.toNat - 65536) % 1024 ∧
          56320 + (c.toNat - 65536) % 1024 ≤ 57343 := by omega
      rw [if_pos hsur2, Option.some_bind]
      have harith : 65536 + (55296 + (c.toNat - 65536) / 1024 - 55296) * 1024 +
          (56320 + (c.toNat - 65536) % 1024 - 56320) = c.toNat := by omega
      rw [harith, Char.ofNat_toNat, if_neg (by decide : ¬('\\' : Char) = '"')]
  · rw [if_neg h8]
    rw [List.singleton_append, readStrBody]
    rw [if_neg h1, if_neg h2]

theorem readStrBody_mapEscape (cs : List Char) : ∀ (fuel : Nat) (acc rest : List Char),
    cs.length < fuel →
    readStrBody fuel acc ((cs.map escapeCh).flatten ++ '"' :: rest) =
      some (⟨acc.reverse ++ cs⟩, rest) := by
  induction cs with
  | nil =>
      intro fuel acc rest hf
      obtain ⟨f, rfl⟩ : ∃ f, fuel = f + 1 := ⟨fuel - 1, by omega⟩
      simp only [List.map_nil, List.flatten_nil, List.nil_append]
      rw [readStrBody]
      simp only []
      rw [if_pos trivial]
      simp
  | cons c cs ih =>
      intro fuel acc rest hf
      obtain ⟨f, rfl⟩ : ∃ f, fuel = f + 1 := ⟨fuel - 1, by omega⟩
      simp only [List.map_cons, List.flatten_cons, List.append_assoc]
      rw [readStrBody_escape, ih f (c :: acc) rest (by simp at hf; omega)]
      simp

theorem plainCh_facts {c : Char} (h : plainCh c = true) :
    c ≠ '"' ∧ c ≠ '\\' := by
  simp only [plainCh, Bool.and_eq_true, bne_iff_ne, decide_eq_true_eq] at h
  exact ⟨h.1.2, h.2⟩

theorem readStrBody_plain (cs : List Char) (h : ∀ c ∈ cs, plainCh c = true) :
    ∀ (fuel : Nat) (acc rest : List Char), cs.length < fuel →
    readStrBody fuel acc (cs ++ '"' :: rest) = some (⟨acc.reverse ++ cs⟩, rest) := by
  induction cs with
  | nil =>
      intro fuel acc rest hf
      obtain ⟨f, rfl⟩ : ∃ f, fuel = f + 1 := ⟨fuel - 1, by omega⟩
      rw [List.nil_append, readStrBody]
      simp only []
      rw [if_pos trivial]
      simp
  | cons c cs ih =>
      intro fuel acc rest hf
      obtain ⟨f, rfl⟩ : ∃ f, fuel = f + 1 := ⟨fuel - 1, by omega⟩
      obtain ⟨hq, hb⟩ := plainCh_facts (h c (List.mem_cons_self c cs))
      simp only [List.cons_append]
      rw [readStrBody]
      rw [if_neg hq, if_neg hb,
          ih (fun x hx => h x (List.mem_cons_of_mem c hx)) f (c :: acc) rest
            (by simp at hf; omega)]
      simp

/-! ## Whitespace and head-character lemmas -/

theorem dropWs_cons_not {c : Char} (h : isJsonWs c = false) (cs : List Char) :
    dropWs (c :: cs) = c :: cs := by
  rw [dropWs, h]
  simp

theorem dropWs_space (cs : List Char) : dropWs (' ' :: cs) = dropWs cs := by
  rw [dropWs, if_pos (by decide : isJsonWs ' ' = true)]

theorem intChs_head (i : Int) :
    ∃ c t, intChs i = c :: t ∧ (c = '-' ∨ isDig c = true) := by
  unfold intChs
  by_cases hi : i < 0
  · exact ⟨'-', natChs i.natAbs, by rw [if_pos hi], Or.inl rfl⟩
  · obtain ⟨c, t, hct, hd⟩ := natChs_cons i.natAbs
    exact ⟨c, t, by rw [if_neg hi, hct], Or.inr hd⟩

theorem dumpChs_head (j : Json) :
    ∃ c t, dumpChs j = c :: t ∧ isJsonWs c = false ∧ c ≠ ']' ∧ c ≠ '}' := by
  cases j with
  | null =>
      refine ⟨'n', _, rfl, ?_, ?_, ?_⟩ <;> decide
  | bool b =>
      cases b
      · refine ⟨'f', _, rfl, ?_, ?_, ?_⟩ <;> decide
      · refine ⟨'t', _, rfl, ?_, ?_, ?_⟩ <;> decide
  | num i =>
      obtain ⟨c, t, hct, hc⟩ := intChs_head i
      refine ⟨c, t, hct, ?_, ?_, ?_⟩
      · rcases hc with rfl | hd
        · decide
        · exact (isDig_not_special hd).1
      · rcases hc with rfl | hd
        · decide
        · exact (isDig_not_special hd).2.2.2.2.2.2.2.2.2.2.2.1
      · rcases hc with rfl | hd
        · decide
        · exact (isDig_not_special hd).2.2.2.2.2.2.2.2.2.2.2.2
  | str s =>
      refine ⟨'"', _, rfl, ?_, ?_, ?_⟩ <;> decide
  | arr es =>
      refine ⟨'[', _, rfl, ?_, ?_, ?_⟩ <;> decide
  | obj fs =>
      refine ⟨'{', _, rfl, ?_, ?_, ?_⟩ <;> decide

theorem dropWs_dumpChs (j : Json) (x : List Char) :
    dropWs (dumpChs j ++ x) = dumpChs j ++ x := by
  obtain ⟨c, t, hct, hws, _, _⟩ := dumpChs_head j
  rw [hct, List.cons_append, dropWs_cons_not hws]

theorem readVal_space (fuel : Nat) (cs : List Char) :
    readVal fuel (' ' :: cs) = readVal fuel cs := by
  cases fuel with
  | zero => rw [readVal, readVal]
  | succ f => rw [readVal, readVal, dropWs_space]

theorem readItems_space (fuel : Nat) (cs : List Char) :
    readItems fuel (' ' :: cs) = readItems fuel cs := by
  cases fuel with
  | zero => rw [readItems, readItems]
  | succ f => rw [readItems, readItems, readVal_space]

theorem readFields_space (fuel : Nat) (cs : List Char) :
    readFields fuel (' ' :: cs) = readFields fuel cs := by
  cases fuel with
  | zero => rw [readFields, readFields]
  | succ f => rw [readFields, readFields, dropWs_space]

theorem readVal_int_start (fuel : Nat) (c : Char) (t : List Char)
    (hws : isJsonWs c = false)
    (hn : c ≠ 'n') (ht : c ≠ 't') (hf : c ≠ 'f') (hq : c ≠ '"')
    (hlb : c ≠ '[') (hlc : c ≠ '{') :
    readVal (fuel + 1) (c :: t) =
      (readInt (c :: t)).map (fun p => (Json.num p.1, p.2)) := by
  rw [readVal, dropWs_cons_not hws]
  split
  all_goals try rfl
  all_goals
    (rename_i heq
     injection heq with hch htl
     subst hch
     exfalso
     first
       | exact hn rfl | exact ht rfl | exact hf rfl | exact hq rfl
       | exact hlb rfl | exact hlc rfl)

/-! ## Codec round trip -/

theorem numDelimiter_comma (cs : List Char) : numDelimiter (',' :: cs) = true := by
  rw [numDelimiter]; rfl

theorem numDelimiter_rbracket (cs : List Char) : numDelimiter (']' :: cs) = true := by
  rw [numDelimiter]; rfl

theorem numDelimiter_rbrace (cs : List Char) : numDelimiter ('}' :: cs) = true := by
  rw [numDelimiter]; rfl

theorem escapeCh_length_pos (c : Char) : 1 ≤ (escapeCh c).length := by
  unfold escapeCh
  split_ifs <;> simp [uEscape]

theorem length_le_flatten_escape (cs : List Char) :
    cs.length ≤ ((cs.map escapeCh).flatten).length := by
  induction cs with
  | nil => simp
  | cons c cs ih =>
      simp only [List.map_cons, List.flatten_cons, List.length_cons, List.length_append]
      have := escapeCh_length_pos c
      omega

theorem readVal_str_start (fuel : Nat) (rest : List Char) :
    readVal (fuel + 1) ('"' :: rest) =
      (readStrBody (rest.length + 1) [] rest).map (fun p => (Json.str p.1, p.2)) := by
  rw [readVal, dropWs_cons_not (by decide)]
  rfl

theorem readVal_arrNil (fuel : Nat) (rest : List Char) :
    readVal (fuel + 1) ('[' :: ']' :: rest) = some (.arr [], rest) := by
  rw [readVal, dropWs_cons_not (by decide)]
  simp only []
  rw [dropWs_cons_not (by decide)]
  rfl

theorem readVal_objNil (fuel : Nat) (rest : List Char) :
    readVal (fuel + 1) ('{' :: '}' :: rest) = some (.obj [], rest) := by
  rw [readVal, dropWs_cons_not (by decide)]
  simp only []
  rw [dropWs_cons_not (by decide)]
  rfl

theorem readVal_arr_go (fuel : Nat) (c : Char) (t : List Char)
    (hws : isJsonWs c = false) (hc : c ≠ ']') :
    readVal (fuel + 1) ('[' :: c :: t) =
      (readItems fuel (c :: t)).map (fun p => (Json.arr p.1, p.2)) := by
  rw [readVal, dropWs_cons_not (by decide)]
  simp only []
  rw [dropWs_cons_not hws]
  split
  all_goals try rfl
  rename_i heq
  injection heq with hch _
  subst hch
  exact absurd rfl hc

theorem readVal_obj_go (fuel : Nat) (c : Char) (t : List Char)
    (hws : isJsonWs c = false) (hc : c ≠ '}') :
    readVal (fuel + 1) ('{' :: c :: t) =
      (readFields fuel (c :: t)).map (fun p => (Json.obj p.1, p.2)) := by
  rw [readVal, dropWs_cons_not (by decide)]
  simp only []
  rw [dropWs_cons_not hws]
  split
  all_goals try rfl
  rename_i heq
  injection heq with hch _
  subst hch
  exact absurd rfl hc

mutual
theorem rt_val : ∀ (j : Json) (fuel : Nat) (rest : List Char),
    (dumpChs j).length < fuel → numDelimiter rest = true →
    readVal fuel (dumpChs j ++ rest) = some (j, rest)
  | j, 0, _, hf, _ => absurd hf (by omega)
  | .null, fuel + 1, rest, _, _ => by
      show readVal (fuel + 1) (['n', 'u', 'l', 'l'] ++ rest) = _
      simp only [List.cons_append, List.nil_append]
      rw [readVal, dropWs_cons_not (by decide)]
      rfl
  | .bool true, fuel + 1, rest, _, _ => by
      show readVal (fuel + 1) (['t', 'r', 'u', 'e'] ++ rest) = _
      simp only [List.cons_append, List.nil_append]
      rw [readVal, dropWs_cons_not (by decide)]
      rfl
  | .bool false, fuel + 1, rest, _, _ => by
      show readVal (fuel + 1) (['f', 'a', 'l', 's', 'e'] ++ rest) = _
      simp only [List.cons_append, List.nil_append]
      rw [readVal, dropWs_cons_not (by decide)]
      rfl
  | .num i, fuel + 1, rest, _, hr => by
      show readVal (fuel + 1) (intChs i ++ rest) = _
      obtain ⟨c, t, hct, hc⟩ := intChs_head i
      rw [hct, List.cons_append]
      have hside : isJsonWs c = false ∧ c ≠ 'n' ∧ c ≠ 't' ∧ c ≠ 'f' ∧ c ≠ '"' ∧
          c ≠ '[' ∧ c ≠ '{' := by
        rcases hc with rfl | hd
        · exact ⟨by decide, by decide, by decide, by decide, by decide, by decide,
            by decide⟩
        · obtain ⟨w, _, _, _, _, n1, n2, n3, n4, n5, n6, _, _⟩ := isDig_not_special hd
          exact ⟨w, n1, n2, n3, n4, n5, n6⟩
      obtain ⟨hws, hn, ht, hf2, hq, hlb, hlc⟩ := hside
      rw [readVal_int_start fuel c (t ++ rest) hws hn ht hf2 hq hlb hlc]
      rw [← List.cons_append, ← hct, readInt_intChs i rest hr]
      rfl
  | .str s, fuel + 1, rest, _, _ => by
      show readVal (fuel + 1) (strChs s ++ rest) = _
      rw [strChs, List.cons_append, List.append_assoc, List.singleton_append]
      rw [readVal_str_start]
      rw [readStrBody_mapEscape s.toList _ [] rest
        (by
          have h1 := length_le_flatten_escape s.toList
          simp only [List.length_append, List.length_cons]
          omega)]
      rw [Option.map_some']
      simp
  | .arr [], fuel + 1, rest, _, _ => by
      show readVal (fuel + 1) (('[' :: (dumpItems [] ++ [']'])) ++ rest) = _
      simp only [dumpItems, List.nil_append, List.cons_append, List.singleton_append]
      rw [readVal_arrNil]
  | .arr (e :: es), fuel + 1, rest, hf, _ => by
      show readVal (fuel + 1) (('[' :: (dumpItems (e :: es) ++ [']'])) ++ rest) = _
      have hb : (dumpChs e).length + (dumpItemsTail es).length + 1 < fuel := by
        simp only [dumpChs, dumpItems, List.length_cons, List.length_append,
          List.length_singleton] at hf
        omega
      simp only [dumpItems, List.cons_append, List.append_assoc, List.singleton_append,
        List.nil_append]
      obtain ⟨c, t, hct, hws, hrb, _⟩ := dumpChs_head e
      rw [hct, List.cons_append]
      rw [readVal_arr_go fuel c _ hws hrb]
      rw [← List.cons_append, ← hct, ← List.append_assoc]
      rw [rt_items e es fuel rest hb]
      rfl
  | .obj [], fuel + 1, rest, _, _ => by
      show readVal (fuel + 1) (('{' :: (dumpFields [] ++ ['}'])) ++ rest) = _
      simp only [dumpFields, List.nil_append, List.cons_append, List.singleton_append]
      rw [readVal_objNil]
  | .obj ((k, v) :: fs), fuel + 1, rest, hf, _ => by
      show readVal (fuel + 1) (('{' :: (dumpFields ((k, v) :: fs) ++ ['}'])) ++ rest) = _
      have hb : (strChs k).length + (dumpChs v).length + (dumpFieldsTail fs).length + 2
          < fuel := by
        simp only [dumpChs, dumpFields, List.length_cons, List.length_append,
          List.length_singleton] at hf
        omega
      have hsh : ('{' :: (dumpFields ((k, v) :: fs) ++ ['}'])) ++ rest
          = '{' :: ((strChs k ++ ':' :: ' ' :: (dumpChs v ++ dumpFieldsTail fs)) ++
              '}' :: rest) := by
        simp [dumpFields, List.append_assoc]
      rw [hsh]
      obtain ⟨t2, ht2⟩ : ∃ t2, (strChs k ++ ':' :: ' ' :: (dumpChs v ++
          dumpFieldsTail fs)) ++ '}' :: rest = '"' :: t2 := by
        refine ⟨(List.map escapeCh k.toList).flatten ++ '"' :: ':' :: ' ' ::
          (dumpChs v ++ (dumpFieldsTail fs ++ '}' :: rest)), ?_⟩
        rw [strChs]
        simp [List.append_assoc]
      rw [ht2, readVal_obj_go fuel '"' t2 (by decide) (by decide), ← ht2]
      rw [rt_fields k v fs fuel rest hb]
      rfl
termination_by j _ _ _ _ => 2 * sizeOf j

theorem rt_items : ∀ (e : Json) (es : List Json) (fuel : Nat) (rest : List Char),
    (dumpChs e).length + (dumpItemsTail es).length + 1 < fuel →
    readItems fuel ((dumpChs e ++ dumpItemsTail es) ++ ']' :: rest) = some (e :: es, rest)
  | _, _, 0, _, hf => absurd hf (by omega)
  | e, [], fuel + 1, rest, hf => by
      simp only [dumpItemsTail, List.append_nil]
      rw [readItems]
      rw [rt_val e fuel (']' :: rest) (by
        simp only [dumpItemsTail, List.length_nil] at hf
        omega) (numDelimiter_rbracket rest)]
      rw [Option.some_bind]
      simp only []
      rw [dropWs_cons_not (by decide)]
      rfl
  | e, x :: es, fuel + 1, rest, hf => by
      simp only [dumpItemsTail]
      rw [readItems]
      rw [List.append_assoc, List.cons_append, List.cons_append]
      have hbe : (dumpChs e).length < fuel := by
        simp only [dumpItemsTail, List.length_cons] at hf
        omega
      rw [rt_val e fuel _ hbe (numDelimiter_comma _)]
      rw [Option.some_bind]
      simp only []
      rw [dropWs_cons_not (by decide)]
      simp only []
      rw [readItems_space]
      rw [rt_items x es fuel rest (by
        simp only [dumpItemsTail, List.length_cons, List.length_append] at hf
        omega)]
      rfl
termination_by e es _ _ _ => 2 * (sizeOf e + sizeOf es) + 1

theorem rt_fields : ∀ (k : String) (v : Json) (fs : List (String × Json))
    (fuel : Nat) (rest : List Char),
    (strChs k).length + (dumpChs v).length + (dumpFieldsTail fs).length + 2 < fuel →
    readFields fuel ((strChs k ++ ':' :: ' ' :: (dumpChs v ++ dumpFieldsTail fs)) ++
      '}' :: rest) = some ((k, v) :: fs, rest)
  | _, _, _, 0, _, hf => absurd hf (by omega)
  | k, v, [], fuel + 1, rest, hf => by
      simp only [dumpFieldsTail, List.append_nil]
      rw [strChs]
      simp only [List.cons_append, List.append_assoc, List.singleton_append,
        List.nil_append]
      rw [readFields, dropWs_cons_not (by decide)]
      simp only []
      rw [readStrBody_mapEscape k.toList _ [] _ (by
        have h1 := length_le_flatten_escape k.toList
        simp only [List.length_append, List.length_cons]
        omega)]
      rw [Option.some_bind]
      simp only []
      rw [dropWs_cons_not (by decide)]
      simp only []
      rw [readVal_space]
      rw [rt_val v fuel ('}' :: rest) (by
        simp only [strChs, dumpFieldsTail, List.length_cons, List.length_append,
          List.length_nil] at hf
        omega) (numDelimiter_rbrace rest)]
      rw [Option.some_bind]
      simp only []
      rw [dropWs_cons_not (by decide)]
      simp
  | k, v, (k2, v2) :: fs, fuel + 1, rest, hf => by
      simp only [dumpFieldsTail]
      rw [strChs]
      simp only [List.cons_append, List.append_assoc, List.singleton_append,
        List.nil_append]
      rw [readFields, dropWs_cons_not (by decide)]
      simp only []
      rw [readStrBody_mapEscape k.toList _ [] _ (by
        have h1 := length_le_flatten_escape k.toList
        simp only [List.length_append, List.length_cons]
        omega)]
      rw [Option.some_bind]
      simp only []
      rw [dropWs_cons_not (by decide)]
      simp only []
      rw [readVal_space]
      rw [rt_val v fuel _ (by
        simp only [strChs, List.length_cons, List.length_append] at hf
        omega) (numDelimiter_comma _)]
      rw [Option.some_bind]
      simp only []
      rw [dropWs_cons_not (by decide)]
      simp only []
      rw [readFields_space]
      have hshape2 : strChs k2 ++ (':' :: ' ' :: (dumpChs v2 ++ (dumpFieldsTail fs ++
          '}' :: rest))) = (strChs k2 ++ ':' :: ' ' :: (dumpChs v2 ++ dumpFieldsTail fs))
          ++ '}' :: rest := by
        simp only [List.append_assoc, List.cons_append]
      rw [hshape2]
      rw [rt_fields k2 v2 fs fuel rest (by
        simp only [strChs, dumpFieldsTail, List.length_cons, List.length_append] at hf ⊢
        omega)]
      simp
termination_by _ v fs _ _ _ => 2 * (sizeOf v + sizeOf fs) + 1
end

/-! ## The codec round trip -/

/-- `json.loads` inverts `json.dumps` on the embedded fragment (character
lists). -/
theorem loads_dumps (j : Json) : loadsChars (dumpChs j) = some j := by
  have h := rt_val j ((dumpChs j).length + 1) [] (by omega) (by decide)
  rw [List.append_nil] at h
  rw [loadsChars, h]
  rfl

/-- `json.loads` inverts `json.dumps` on the embedded fragment (strings). -/
theorem jsonLoads_jsonDumps (j : Json) : jsonLoads (jsonDumps j) = some j :=
  loads_dumps j

/-- Parsing the tail of an outgoing frame: the items after the opening
bracket of `2["name",payload]` read back as the two-element list, when
the raw-interpolated name contains only plain characters. -/
theorem readItems_frame_tail (e : String) (p : Json)
    (h : ∀ c ∈ e.toList, plainCh c = true) :
    ∀ g : Nat, (dumpChs p).length + 2 < g →
    readItems g ('"' :: (e.toList ++ '"' :: ',' :: (dumpChs p ++ [']']))) =
      some ([.str e, p], []) := by
  intro g hg
  obtain ⟨g1, rfl⟩ : ∃ g1, g = g1 + 1 := ⟨g - 1, by omega⟩
  obtain ⟨g2, rfl⟩ : ∃ g2, g1 = g2 + 1 := ⟨g1 - 1, by omega⟩
  rw [readItems, readVal_str_start]
  rw [readStrBody_plain e.toList h
    ((e.toList ++ '"' :: ',' :: (dumpChs p ++ [']'])).length + 1) []
    (',' :: (dumpChs p ++ [']'])) (by simp; omega)]
  rw [Option.map_some', Option.some_bind]
  simp only [List.reverse_nil, List.nil_append]
  rw [dropWs_cons_not (by decide)]
  simp only []
  rw [(by simp [dumpItemsTail] :
    dumpChs p ++ [']'] = (dumpChs p ++ dumpItemsTail []) ++ ']' :: ([] : List Char))]
  rw [rt_items p [] (g2 + 1) [] (by simp [dumpItemsTail]; omega)]
  rfl

/-- Decoding an outgoing frame whose event name contains only plain
printable characters recovers the name and the payload. -/
theorem decode_send_plain (e : String) (p : Json)
    (h : ∀ c ∈ e.toList, plainCh c = true) :
    decode_frame (send_event_frame e p) = some (.str e, p) := by
  have hms : (send_event_frame e p).toList =
      '2' :: '[' :: '"' :: (e.toList ++ '"' :: ',' :: (dumpChs p ++ [']'])) := rfl
  have hl : loadsChars ('[' :: '"' :: (e.toList ++ '"' :: ',' :: (dumpChs p ++ [']']))) =
      some (.arr [.str e, p]) := by
    rw [loadsChars]
    rw [(by simp : ('[' :: '"' :: (e.toList ++ '"' :: ',' :: (dumpChs p ++ [']']))).length + 1
      = ((e.toList ++ '"' :: ',' :: (dumpChs p ++ [']'])).length + 2) + 1)]
    rw [readVal_arr_go _ '"' _ (by decide) (by decide)]
    rw [readItems_frame_tail e p h
      ((e.toList ++ '"' :: ',' :: (dumpChs p ++ [']'])).length + 2) (by simp; omega)]
    rfl
  rw [decode_frame, hms]
  simp only []
  rw [hl]

/-! ## The Pending Response Table -/

/-- Folding the last-binding-wins lookup over bindings of other keys
leaves the accumulator alone. -/
theorem foldl_lookup_skip (key : String) : ∀ (t : List (String × Json)) (acc : Option Json),
    (∀ kv ∈ t, kv.1 ≠ key) →
    t.foldl (fun acc kv => if kv.1 = key then some kv.2 else acc) acc = acc := by
  intro t
  induction t with
  | nil => intro acc _; rfl
  | cons kv t ih =>
      intro acc h
      rw [List.foldl_cons, if_neg (h kv (List.mem_cons_self kv t))]
      exact ih acc (fun x hx => h x (List.mem_cons_of_mem kv hx))

/-- After the read-and-clear, the key is gone from the table. -/
theorem tableGet_tableDrop (t : RespTable) (key : String) :
    tableGet (tableDrop t key) key = none := by
  apply foldl_lookup_skip
  intro kv hkv
  have hmem := List.of_mem_filter hkv
  simpa using hmem

/-- If no poll ever sees the key, the waiter runs out of fuel and
returns `none`. -/
theorem wait_for_response_none (tables : Nat → RespTable) (key : String)
    (h : ∀ u, tableGet (tables u) key = none) :
    ∀ (fuel t : Nat), wait_for_response tables key t fuel = none := by
  intro fuel
  induction fuel with
  | zero => intro t; rfl
  | succ f ih =>
      intro t
      rw [wait_for_response, h t]
      exact ih (t + 1)

/-- If the key first appears at poll tick `t + k` and the fuel budget
reaches that tick, the waiter returns the value seen there together with
the table after the read-and-clear. -/
theorem wait_for_response_arrives (tables : Nat → RespTable) (key : String) :
    ∀ (k t fuel : Nat), k < fuel →
    (∀ i, i < k → tableGet (tables (t + i)) key = none) →
    ∀ v, tableGet (tables (t + k)) key = some v →
    wait_for_response tables key t fuel =
      some (v, tableDrop (tables (t + k)) key) := by
  intro k
  induction k with
  | zero =>
      intro t fuel hk _ v hv
      obtain ⟨f, rfl⟩ : ∃ f, fuel = f + 1 := ⟨fuel - 1, by omega⟩
      have hv' : tableGet (tables t) key = some v := by simpa using hv
      rw [wait_for_response, hv']
      simp
  | succ m ih =>
      intro t fuel hk habs v hv
      obtain ⟨f, rfl⟩ : ∃ f, fuel = f + 1 := ⟨fuel - 1, by omega⟩
      have h0 : tableGet (tables t) key = none := by
        have h00 := habs 0 (Nat.succ_pos m)
        simpa using h00
      rw [wait_for_response, h0]
      have harith : t + 1 + m = t + (m + 1) := by omega
      have habs' : ∀ i, i < m → tableGet (tables (t + 1 + i)) key = none := by
        intro i hi
        have hi1 := habs (i + 1) (by omega)
        have he : t + (i + 1) = t + 1 + i := by omega
        rwa [he] at hi1
      have hv' : tableGet (tables (t + 1 + m)) key = some v := by rwa [harith]
      have hrec := ih (t + 1) f (by omega) habs' v hv'
      rwa [harith] at hrec

/-! ## The elapsed/timestamp invariant, handler by handler -/

theorem elapsedTsInv_process (now : Nat) (p : Json) (s : CoordState)
    (h : elapsedTsInv s = true) :
    elapsedTsInv (handle_process_event now p s) = true := by
  cases p <;> try exact h
  rw [handle_process_event]
  split
  · exact h
  · simp only []
    split
    · split
      · simp [elapsedTsInv]
      · simpa [elapsedTsInv] using h
    · simpa [elapsedTsInv] using h

theorem elapsedTsInv_start (now : Nat) (p : Json) (s : CoordState)
    (h : elapsedTsInv s = true) :
    elapsedTsInv (handle_start_event now p s) = true := by
  cases p <;> try exact h
  simp [handle_start_event, elapsedTsInv]

theorem elapsedTsInv_stop (s : CoordState) :
    elapsedTsInv (handle_stop_event s) = true := by
  simp [handle_stop_event, elapsedTsInv]

theorem elapsedTsInv_clear (s : CoordState) :
    elapsedTsInv (clear_playback_state s) = true := by
  simp [clear_playback_state, elapsedTsInv]

theorem elapsedTsInv_stopped (p : Json) (s : CoordState) :
    elapsedTsInv (handle_stopped_event p s) = true := by
  simp [handle_stopped_event, clear_playback_state, elapsedTsInv]

theorem elapsedTsInv_progress (now : Nat) (p : Json) (s : CoordState)
    (h : elapsedTsInv s = true) :
    elapsedTsInv (handle_progress_event now p s) = true := by
  cases p
  case obj fs =>
    simp only [handle_progress_event]
    split
    · simp [elapsedTsInv]
    · exact h
  all_goals
    simp [handle_progress_event, ite_self]
    exact h

theorem elapsedTsInv_volume (p : Json) (s : CoordState)
    (h : elapsedTsInv s = true) :
    elapsedTsInv (handle_volume_event p s) = true := by
  rw [handle_volume_event]
  split
  · simpa [elapsedTsInv] using h
  · exact h

theorem elapsedTsInv_play_state (p : Json) (s : CoordState)
    (h : elapsedTsInv s = true) :
    elapsedTsInv (handle_play_state_event p s) = true := by
  cases p <;> exact h

theorem elapsedTsInv_stations (p : Json) (s : CoordState)
    (h : elapsedTsInv s = true) :
    elapsedTsInv (handle_stations_event p s) = true := by
  simpa [handle_stations_event, elapsedTsInv] using h

theorem elapsedTsInv_dispatch (now : Nat) (name payload : Json) (s : CoordState)
    (h : elapsedTsInv s = true) :
    elapsedTsInv (dispatch_event now name payload s) = true := by
  cases name <;> try exact h
  rw [dispatch_event]
  split_ifs
  · exact elapsedTsInv_process now payload s h
  · exact elapsedTsInv_start now payload s h
  · exact elapsedTsInv_stop s
  · exact elapsedTsInv_stopped payload s
  · exact elapsedTsInv_progress now payload s h
  · exact elapsedTsInv_volume payload s h
  · exact elapsedTsInv_play_state payload s h
  · exact elapsedTsInv_stations payload s h
  · exact h

theorem elapsedTsInv_handle (now : Nat) (m : String) (s : CoordState)
    (h : elapsedTsInv s = true) :
    elapsedTsInv (handle_message now m s) = true := by
  rw [handle_message]
  split
  · exact elapsedTsInv_dispatch now _ _ s h
  · exact h

theorem elapsedTsInv_run (msgs : List (Nat × String)) :
    ∀ s : CoordState, elapsedTsInv s = true →
    elapsedTsInv (run_messages msgs s) = true := by
  induction msgs with
  | nil => intro s h; exact h
  | cons m ms ih =>
      intro s h
      exact ih (handle_message m.1 m.2 s) (elapsedTsInv_handle m.1 m.2 s h)

/-! ## The claims -/

/-- Claim C1: `_handle_message` has no branch for the reply events
`song_explanation`, `query.upcoming.result`, `stationInfo`,
`stationModes`, `searchResults` or `genres`: dispatching any of them
leaves every field of the coordinator state unchanged, and no
pending-response table exists in `coordinator.py` for the payload to be
stashed into — the claimed stashing does not happen. -/
theorem reply_events_have_no_effect (now : Nat) (payload : Json) (s : CoordState) :
    dispatch_event now (.str "song_explanation") payload s = s ∧
    dispatch_event now (.str "query.upcoming.result") payload s = s ∧
    dispatch_event now (.str "stationInfo") payload s = s ∧
    dispatch_event now (.str "stationModes") payload s = s ∧
    dispatch_event now (.str "searchResults") payload s = s ∧
    dispatch_event now (.str "genres") payload s = s ∧
    handle_message now "2[\"stationInfo\",[\"seed\"]]" s = s :=
  ⟨rfl, rfl, rfl, rfl, rfl, rfl, rfl⟩

/-- Claim C2: the response waiter (modelled from the spec, the method being
absent from `coordinator.py` under `src/`) returns `none` when no poll
ever finds the key, and when a value for the key is present at the first
poll or becomes present at any later poll the budget still reaches, it
returns that value together with the table after the read-and-clear, from
which the key is gone. -/
theorem wait_for_response_spec (tables : Nat → RespTable) (key : String) (t fuel : Nat) :
    ((∀ u, tableGet (tables u) key = none) →
      wait_for_response tables key t fuel = none) ∧
    (∀ k v, k < fuel →
      (∀ i, i < k → tableGet (tables (t + i)) key = none) →
      tableGet (tables (t + k)) key = some v →
      wait_for_response tables key t fuel =
        some (v, tableDrop (tables (t + k)) key) ∧
      tableGet (tableDrop (tables (t + k)) key) key = none) := by
  constructor
  · intro h
    exact wait_for_response_none tables key h fuel t
  · intro k v hk habs hv
    exact ⟨wait_for_response_arrives tables key k t fuel hk habs v hv,
           tableGet_tableDrop _ _⟩

/-- Witness for C2 at concrete inputs: against a table that is empty at
tick 0 and gains the key at tick 1 — the key becomes present only after
the wait begins — the waiter returns the value with the binding erased;
an always-empty table times out to `none`. -/
theorem wait_for_response_spec_witness :
    wait_for_response (fun u => if u = 0 then [] else [("station_info", Json.num 7)])
      "station_info" 0 3 = some (Json.num 7, []) ∧
    wait_for_response (fun _ => []) "genres" 0 4 = none := by
  constructor
  · exact ((wait_for_response_spec
      (fun u => if u = 0 then [] else [("station_info", Json.num 7)])
      "station_info" 0 3).2 1 (Json.num 7) (by omega)
      (fun i hi => by
        have hi0 : i = 0 := by omega
        subst hi0
        rfl) rfl).1
  · exact (wait_for_response_spec (fun _ => []) "genres" 0 4).1 (fun _ => rfl)

/-- Claim C3 counterexample: after a `start` then a `stop`, `song` and
`elapsed` are deleted but the position timestamp set by `start` at clock 5
survives, and `playing` is false — the three are removed partially,
refuting both the if-and-only-if and the removed-together clause. -/
theorem stop_leaves_timestamp_behind :
    (run_messages [(5, "2[\"start\",\x7b\x7d]"), (6, "2[\"stop\",0]")] initState).song =
      none ∧
    (run_messages [(5, "2[\"start\",\x7b\x7d]"), (6, "2[\"stop\",0]")] initState).elapsed =
      none ∧
    (run_messages [(5, "2[\"start\",\x7b\x7d]"), (6, "2[\"stop\",0]")]
      initState).position_updated_at = some 5 ∧
    (run_messages [(5, "2[\"start\",\x7b\x7d]"), (6, "2[\"stop\",0]")] initState).playing =
      Json.bool false :=
  ⟨rfl, rfl, rfl, rfl⟩

/-- Claim C3 (amended): in every state reachable from the initial state by
dispatching inbound frames, a stored `elapsed` has a position timestamp
alongside it, and `_handle_stop_event` deletes `song` and `elapsed`
together while leaving `position_updated_at` exactly as it was. -/
theorem elapsed_timestamp_invariant (msgs : List (Nat × String)) (s : CoordState) :
    elapsedTsInv (run_messages msgs initState) = true ∧
    (handle_stop_event s).song = none ∧
    (handle_stop_event s).elapsed = none ∧
    (handle_stop_event s).position_updated_at = s.position_updated_at :=
  ⟨elapsedTsInv_run msgs initState rfl, rfl, rfl, rfl⟩

/-- Claim C4 counterexample: the event name is interpolated into the
outgoing frame raw, so a name holding one double quote yields the frame
`2[""",null]`, which the decoder rejects — the round trip returns `none`,
not the pair that was encoded. -/
theorem decode_encode_quote_fails :
    decode_frame (send_event_frame "\"" Json.null) = none ∧
    ¬ decode_frame (send_event_frame "\"" Json.null) =
        some (Json.str "\"", Json.null) := by
  have h : decode_frame (send_event_frame "\"" Json.null) = none := rfl
  refine ⟨h, ?_⟩
  rw [h]
  simp

/-- Claim C4 (amended): for event names made of printable ASCII free of
the quote and the backslash — every name the integration sends qualifies —
decoding the encoded frame returns exactly the name and the payload. -/
theorem decode_encode_round_trip (e : String) (p : Json)
    (h : ∀ c ∈ e.toList, plainCh c = true) :
    decode_frame (send_event_frame e p) = some (.str e, p) :=
  decode_send_plain e p h

/-- Witness for C4 at a concrete input: the frame for `("query", null)`
decodes back to `("query", null)`. -/
theorem decode_encode_round_trip_witness :
    decode_frame (send_event_frame "query" Json.null) =
      some (Json.str "query", Json.null) :=
  decode_encode_round_trip "query" Json.null (by decide)

/-- Claim C5: the reconnect delay after `k` consecutive failures is
`min (5 * 2 ^ k) 300` — concretely 5, 10, 20, 40, 80, 160, 300, 300, ... —
it never exceeds the 300-second ceiling, a successful connect resets it
to 5, and each failure doubles it up to the ceiling. -/
theorem reconnect_backoff_schedule :
    (∀ k, delay_after_failures k = min (5 * 2 ^ k) 300) ∧
    (List.range 8).map delay_after_failures = [5, 10, 20, 40, 80, 160, 300, 300] ∧
    (∀ k, delay_after_failures k ≤ 300) ∧
    (∀ c, (on_connect_success c).reconnect_delay = 5) ∧
    (∀ c, (on_reconnect_failure c).reconnect_delay = min (c.reconnect_delay * 2) 300) := by
  have key : ∀ k, delay_after_failures k = min (5 * 2 ^ k) 300 := by
    intro k
    induction k with
    | zero => decide
    | succ m ih =>
        rw [delay_after_failures, ih, next_reconnect_delay, WS_MAX_RECONNECT_DELAY]
        have hx : 5 * 2 ^ (m + 1) = 5 * 2 ^ m * 2 := by ring
        omega
  refine ⟨key, by decide, ?_, fun c => rfl, fun c => rfl⟩
  intro k
  rw [key k]
  exact Nat.min_le_right _ _

/-- Claim C6: a bare `volume` event with numeric wire value `n` and a
full-state `process` event carrying `volume = n` both store exactly
`n / 100`, sign preserved; end to end, the frame `2["volume",-10]` yields
a stored volume of `-1/10`. -/
theorem volume_scaled_sign_preserved (n : Int) (s : CoordState)
    (fs : List (String × Json)) :
    (handle_volume_event (.num n) s).volume = (n : ℚ) / 100 ∧
    (jget fs "volume" = some (.num n) →
      (handle_process_event 0 (.obj fs) s).volume = (n : ℚ) / 100) ∧
    (handle_message 0 "2[\"volume\",-10]" initState).volume = -(1 / 10) := by
  refine ⟨rfl, ?_, ?_⟩
  · intro h
    rw [handle_process_event, jgetD, h]
    simp only [Option.getD_some, pyNumber]
    split_ifs <;> rfl
  · have hd : (handle_message 0 "2[\"volume\",-10]" initState).volume =
        ((-10 : Int) : ℚ) / 100 := rfl
    rw [hd]
    norm_num

/-- Witness for C6 at a concrete input: a `process` payload with
`volume = -5` stores `-5/100`, the spec's `-0.05`. -/
theorem volume_scaled_sign_preserved_witness :
    (handle_process_event 0 (Json.obj [("volume", Json.num (-5))]) initState).volume =
      ((-5 : Int) : ℚ) / 100 :=
  (volume_scaled_sign_preserved (-5) initState [("volume", Json.num (-5))]).2.1 rfl

/-- Claim C8: a `progress` event is a complete no-op while the stored
`playing` is falsy; while it is truthy, a dict payload sets `elapsed` to
the payload's value (default 0) and stamps `position_updated_at` with the
current clock; the dispatcher routes `progress` to exactly this handler. -/
theorem progress_gated_on_playing (now : Nat) (payload : Json) (s : CoordState)
    (fs : List (String × Json)) :
    (truthy s.playing = false → handle_progress_event now payload s = s) ∧
    (truthy s.playing = true →
      handle_progress_event now (.obj fs) s =
        { s with elapsed := some (jgetD fs "elapsed" (.num 0)),
                 position_updated_at := some now }) ∧
    dispatch_event now (.str "progress") payload s = handle_progress_event now payload s := by
  refine ⟨?_, ?_, rfl⟩
  · intro h
    simp [handle_progress_event, h]
  · intro h
    simp [handle_progress_event, h]

/-- Witness for C8 at concrete inputs: with `playing` false the initial
state is unchanged; with `playing` true, `elapsed` and the timestamp are
set. -/
theorem progress_gated_on_playing_witness :
    handle_progress_event 9 (Json.obj [("elapsed", Json.num 67)]) initState =
      initState ∧
    handle_progress_event 9 (Json.obj [("elapsed", Json.num 67)])
        { initState with playing := Json.bool true } =
      { initState with playing := Json.bool true, elapsed := some (Json.num 67),
                       position_updated_at := some 9 } := by
  constructor
  · exact (progress_gated_on_playing 9 (Json.obj [("elapsed", Json.num 67)])
      initState []).1 rfl
  · exact (progress_gated_on_playing 9 (Json.obj [("elapsed", Json.num 67)])
      { initState with playing := Json.bool true } [("elapsed", Json.num 67)]).2.1 rfl

/-- Claim C9: the freshly constructed state holds `station` and
`stationId` as empty strings and `volume` 0, while the clear path stores
`null` in both — two observably different idle representations, as the
`stopped` frame shows end to end. -/
theorem idle_representations_differ (s : CoordState) :
    initState.station = Json.str "" ∧
    initState.stationId = Json.str "" ∧
    initState.volume = 0 ∧
    (clear_playback_state s).station = Json.null ∧
    (clear_playback_state s).stationId = Json.null ∧
    Json.str "" ≠ Json.null ∧
    (handle_message 0 "2[\"stopped\",0]" initState).station = Json.null := by
  refine ⟨rfl, rfl, rfl, rfl, rfl, ?_, rfl⟩
  intro hc
  exact Json.noConfusion hc

/-- Claim C10 counterexample: from a paused state, a `start` frame — not a
`stopped` event and not the connection-loss clear path — resets `paused`
to false, refuting the claim's "only" clause. -/
theorem start_resets_paused :
    (handle_play_state_event (Json.obj [("paused", Json.bool true)]) initState).paused =
      Json.bool true ∧
    (handle_message 0 "2[\"start\",\x7b\x7d]"
        (handle_play_state_event (Json.obj [("paused", Json.bool true)])
          initState)).paused = Json.bool false :=
  ⟨rfl, rfl⟩

/-- Claim C10 (amended): a `stop` event sets `playing` false and leaves
`paused` exactly as it was — in particular a paused state stays paused —
while the `stopped` event and the clear path reset `paused` to false;
however `start`, `process` and `playState` events can also overwrite
`paused`, so those are not the only resets. -/
theorem stop_preserves_paused (now : Nat) (p : Json) (s : CoordState) :
    (handle_stop_event s).playing = Json.bool false ∧
    (handle_stop_event s).paused = s.paused ∧
    (s.paused = Json.bool true →
      (dispatch_event now (.str "stop") p s).playing = Json.bool false ∧
      (dispatch_event now (.str "stop") p s).paused = Json.bool true) ∧
    (handle_stopped_event p s).paused = Json.bool false ∧
    (clear_playback_state s).paused = Json.bool false := by
  refine ⟨rfl, rfl, ?_, rfl, rfl⟩
  intro h
  exact ⟨rfl, (rfl : (dispatch_event now (.str "stop") p s).paused = s.paused).trans h⟩

/-- Witness for C10 at a concrete input: a paused initial state stays
paused through a `stop` dispatch while `playing` goes false. -/
theorem stop_preserves_paused_witness :
    (dispatch_event 0 (.str "stop") (Json.num 0)
        { initState with paused := Json.bool true }).playing = Json.bool false ∧
    (dispatch_event 0 (.str "stop") (Json.num 0)
        { initState with paused := Json.bool true }).paused = Json.bool true :=
  ⟨((stop_preserves_paused 0 (Json.num 0)
      { initState with paused := Json.bool true }).2.2.1 rfl).1,
   ((stop_preserves_paused 0 (Json.num 0)
      { initState with paused := Json.bool true }).2.2.1 rfl).2⟩
